import Mathlib

/-!
# Verification of the spacing normalizer and responsive class synthesizer

A shallow embedding of `src/mappings/spacing.ts` and `src/mappings/theme-scales.ts`
(the spacing value normalizer and the breakpoint-prefixed class synthesizer of the
chakra-to-tailwind codemod), together with theorems settling the frozen claims
about that code.

JavaScript numbers are modelled as rationals (`ℚ`); every numeric value the code
manipulates on the inputs considered here is an exact dyadic rational, so no
floating-point rounding is lost.  `NaN` is modelled by `Option ℚ` with `none`
playing the role of `NaN` at the points where the code can produce it
(`Number.parseFloat` / `Number.parseInt` failures), and string interpolation of
`NaN` renders `"NaN"` as in JavaScript.  `Number.parseFloat` is modelled with
optional leading whitespace, sign, decimal mantissa and decimal exponent
(`Infinity` literals are not modelled; no input here contains them), and
`Number.parseInt` with optional whitespace, sign, and decimal or `0x` hexadecimal
digits.
-/

namespace ChakraToTailwind

/-! ## JavaScript string/number primitives -/

/-- The characters matched by JavaScript's `\s` (the ASCII part; the exotic
Unicode space characters do not occur in any input considered here). -/
def jsIsSpace (c : Char) : Bool :=
  c = ' ' || c = '\t' || c = '\n' || c = '\r' || c = '\x0b' || c = '\x0c'

/-- Boolean prefix test on character lists. -/
def listIsPfxOf : List Char → List Char → Bool
  | [], _ => true
  | _ :: _, [] => false
  | a :: as, b :: bs => a = b && listIsPfxOf as bs

/-- Boolean substring test on character lists (`pat` occurs inside `l`). -/
def listContainsSub (pat : List Char) : List Char → Bool
  | [] => pat.isEmpty
  | c :: rest => listIsPfxOf pat (c :: rest) || listContainsSub pat rest

/-- Model of `String.prototype.includes`. -/
def strContains (s pat : String) : Bool :=
  listContainsSub pat.data s.data

/-- Model of `String.prototype.startsWith`. -/
def strStartsWith (s pat : String) : Bool :=
  listIsPfxOf pat.data s.data

/-- Model of `String.prototype.endsWith`. -/
def strEndsWith (s pat : String) : Bool :=
  listIsPfxOf pat.data.reverse s.data.reverse

/-- Decimal digits split: the leading run of decimal digits and the rest. -/
def decDigits (l : List Char) : List Char × List Char :=
  (l.takeWhile Char.isDigit, l.dropWhile Char.isDigit)

/-- Numeric value of a list of decimal digits. -/
def digitsToNat (l : List Char) : ℕ :=
  l.foldl (fun a c => 10 * a + (c.toNat - 48)) 0

/-- Split an optional leading `+`/`-` sign; `true` means negative. -/
def splitSign : List Char → Bool × List Char
  | '-' :: t => (true, t)
  | '+' :: t => (false, t)
  | l => (false, l)

/-- Apply a parsed sign to a value. -/
def ratSign (neg : Bool) (q : ℚ) : ℚ :=
  if neg then -q else q

/-- The decimal mantissa of JavaScript's float grammar, split into the leading
digits `ds` and the rest `r1`: `digits`, `digits.digits`, `.digits` — at least
one digit overall.  Returns the value and the unconsumed rest. -/
def parseMantissaAux (ds r1 : List Char) : Option (ℚ × List Char) :=
  match r1 with
  | '.' :: r2 =>
      if ds.isEmpty && ((decDigits r2).1).isEmpty then none
      else some ((digitsToNat ds : ℚ) + (digitsToNat (decDigits r2).1 : ℚ) / 10 ^ ((decDigits r2).1).length,
                 (decDigits r2).2)
  | _ => if ds.isEmpty then none else some ((digitsToNat ds : ℚ), r1)

/-- The decimal mantissa of JavaScript's float grammar. -/
def parseMantissa (l : List Char) : Option (ℚ × List Char) :=
  parseMantissaAux (decDigits l).1 (decDigits l).2

/-- The multiplier contributed by an optional decimal exponent (`e`/`E`, optional
sign, digits); an exponent without digits is not consumed, as in JavaScript. -/
def expMult (l : List Char) : ℚ :=
  match l with
  | c :: r =>
      if c = 'e' || c = 'E' then
        let sg := (splitSign r).1
        let ds := (decDigits (splitSign r).2).1
        if ds.isEmpty then 1
        else if sg then ((1 : ℚ) / 10) ^ digitsToNat ds else (10 : ℚ) ^ digitsToNat ds
      else 1
  | [] => 1

/-- `Number.parseFloat` after whitespace and sign: decimal mantissa then
optional decimal exponent; `none` models `NaN`. -/
def jsParseFloatAux (neg : Bool) (l2 : List Char) : Option ℚ :=
  match parseMantissa l2 with
  | none => none
  | some m => some (ratSign neg (m.1 * expMult m.2))

/-- Model of `Number.parseFloat` on a character list: leading whitespace,
optional sign, decimal mantissa, optional decimal exponent. -/
def jsParseFloatList (l : List Char) : Option ℚ :=
  jsParseFloatAux (splitSign (l.dropWhile jsIsSpace)).1 (splitSign (l.dropWhile jsIsSpace)).2

/-- Model of `Number.parseFloat`. -/
def jsParseFloat (s : String) : Option ℚ :=
  jsParseFloatList s.data

/-- Value of a list of hexadecimal digits, with its validity test. -/
def hexDigitsToNat (l : List Char) : ℕ :=
  l.foldl (fun a c =>
    16 * a +
      (if c.isDigit then c.toNat - 48
       else if 'a' ≤ c && c ≤ 'f' then c.toNat - 87
       else c.toNat - 55)) 0

/-- Is `c` a hexadecimal digit? -/
def isHexDigit (c : Char) : Bool :=
  c.isDigit || ('a' ≤ c && c ≤ 'f') || ('A' ≤ c && c ≤ 'F')

/-- `Number.parseInt` after whitespace and sign (radix auto-detection: a
`0x`/`0X` head selects hexadecimal, otherwise decimal digits); `none` models
`NaN`. -/
def jsParseIntAux (neg : Bool) (l2 : List Char) : Option ℚ :=
  match l2 with
  | '0' :: x :: rest =>
      if x = 'x' || x = 'X' then
        if (rest.takeWhile isHexDigit).isEmpty then none
        else some (ratSign neg (hexDigitsToNat (rest.takeWhile isHexDigit) : ℚ))
      else some (ratSign neg (digitsToNat (decDigits ('0' :: x :: rest)).1 : ℚ))
  | _ =>
      if ((decDigits l2).1).isEmpty then none
      else some (ratSign neg (digitsToNat (decDigits l2).1 : ℚ))

/-- Model of `Number.parseInt` on a character list: leading whitespace, optional
sign, then digits in the detected radix. -/
def jsParseIntList (l : List Char) : Option ℚ :=
  jsParseIntAux (splitSign (l.dropWhile jsIsSpace)).1 (splitSign (l.dropWhile jsIsSpace)).2

/-- Model of `Number.parseInt`. -/
def jsParseInt (s : String) : Option ℚ :=
  jsParseIntList s.data

/-- The character of a decimal digit value. -/
def digitChar (n : ℕ) : Char :=
  Char.ofNat (48 + n)

/-- Decimal digits of a natural number (fuel-driven; the fuel `n + 1` always
suffices). -/
def natDigitsAux : ℕ → ℕ → List Char
  | 0, _ => []
  | fuel + 1, n =>
      if n < 10 then [digitChar n]
      else natDigitsAux fuel (n / 10) ++ [digitChar (n % 10)]

/-- Decimal string of a natural number. -/
def natToStr (n : ℕ) : String :=
  ⟨natDigitsAux (n + 1) n⟩

/-- Integer part of a nonnegative rational. -/
def ratIP (q : ℚ) : ℕ :=
  q.num.toNat / q.den

/-- The decimal digits of the fractional part `q` (with `0 ≤ q < 1`), up to the
given fuel; exact whenever the decimal expansion terminates within the fuel,
which holds for every value arising in this development (JavaScript's
`Number.prototype.toString` prints such values exactly). -/
def fracDigitsAux : ℕ → ℚ → List Char
  | 0, _ => []
  | fuel + 1, q =>
      if q = 0 then []
      else digitChar (ratIP (q * 10)) :: fracDigitsAux fuel (q * 10 - (ratIP (q * 10) : ℚ))

/-- Decimal string of a nonnegative rational, JavaScript style (no trailing
`.0`). -/
def ratToStrNonneg (q : ℚ) : String :=
  if q - (ratIP q : ℚ) = 0 then natToStr (ratIP q)
  else natToStr (ratIP q) ++ "." ++ ⟨fracDigitsAux 40 (q - (ratIP q : ℚ))⟩

/-- Model of JavaScript number-to-string conversion (template-literal
interpolation / `Number.prototype.toString`) on the exact rationals arising
here. -/
def jsNumToString (q : ℚ) : String :=
  if q < 0 then "-" ++ ratToStrNonneg (-q) else ratToStrNonneg q

/-- Interpolation of a possibly-`NaN` number: `NaN` prints as `"NaN"`. -/
def jsNumToStringOpt : Option ℚ → String
  | none => "NaN"
  | some q => jsNumToString q

/-- `Math.abs` lifted through `NaN` (`Math.abs(NaN)` is `NaN`). -/
def jsAbsOpt : Option ℚ → Option ℚ
  | none => none
  | some q => some |q|

/-- The comparison `px < 0` on a possibly-`NaN` number (`NaN < 0` is `false`). -/
def jsIsNeg : Option ℚ → Bool
  | none => false
  | some q => decide (q < 0)

/-- Model of `Array.prototype.join(sep)` on the nonempty-token lists produced
below. -/
def joinSep (sep : String) : List String → String
  | [] => ""
  | [x] => x
  | x :: y :: rest => x ++ sep ++ joinSep sep (y :: rest)

/-! ## The Scale Table (`theme-scales.ts`) -/

/-- `spacingScale` of `theme-scales.ts`, in source order: canonical scale step →
length string. -/
def spacingScale : List (String × String) :=
  [("px", "1px"), ("0", "0"),
   ("0.5", "0.125rem"), ("1", "0.25rem"), ("1.5", "0.375rem"), ("2", "0.5rem"),
   ("2.5", "0.625rem"), ("3", "0.75rem"), ("3.5", "0.875rem"), ("4", "1rem"),
   ("5", "1.25rem"), ("6", "1.5rem"), ("7", "1.75rem"), ("8", "2rem"),
   ("9", "2.25rem"), ("10", "2.5rem"), ("12", "3rem"), ("14", "3.5rem"),
   ("16", "4rem"), ("20", "5rem"), ("24", "6rem"), ("28", "7rem"),
   ("32", "8rem"), ("36", "9rem"), ("40", "10rem"), ("44", "11rem"),
   ("48", "12rem"), ("52", "13rem"), ("56", "14rem"), ("60", "15rem"),
   ("64", "16rem"), ("72", "18rem"), ("80", "20rem"), ("96", "24rem")]

/-- `remToScaleMap`: rem-length string → scale step, built from the entries of
`spacingScale` whose value ends in `rem` (the keys are pairwise distinct, so an
association list looked up from the front models the `Map`). -/
def remToScaleMap : List (String × String) :=
  (spacingScale.filter fun p => strEndsWith p.2 "rem").map fun p => (p.2, p.1)

/-- One entry of `pxToScaleMap`: the pixel key computed from a `spacingScale`
entry (`parseInt` for `px` values, `parseFloat * 16` for `rem` values, `0` for
the `"0"` entry; every parse succeeds on the table, which `decide` confirms
below). -/
def pxEntry (p : String × String) : Option (ℚ × String) :=
  if strEndsWith p.2 "px" then (jsParseInt p.2).map fun q => (q, p.1)
  else if strEndsWith p.2 "rem" then (jsParseFloat p.2).map fun q => (q * 16, p.1)
  else if p.2 = "0" then some (0, p.1)
  else none

/-- `pxToScaleMap`: pixel number → scale step. -/
def pxToScaleMap : List (ℚ × String) :=
  spacingScale.filterMap pxEntry

/-! ## The Normalizer (`theme-scales.ts`) -/

/-- `removeSpaces`: strips all whitespace (the `/\s+/g` replacement) only from
strings containing `calc` or `clamp`. -/
def removeSpaces (value : String) : String :=
  if strContains value "calc" || strContains value "clamp" then
    ⟨value.data.filter fun c => !jsIsSpace c⟩
  else value

/-- `normalizeToRem`: a `px` length is rendered as its `/16` rem equivalent
(template-literal interpolation, so a `NaN` parse renders `"NaNrem"`), a `rem`
length is returned as is, anything else gives `null`. -/
def normalizeToRem (value : String) : Option String :=
  if strEndsWith value "px" then
    some (jsNumToStringOpt ((jsParseFloat value).map fun q => q / 16) ++ "rem")
  else if strEndsWith value "rem" then some value
  else none

/-- The numeric branch of `normalizeSpacing`: `0` gives `"0"`, a negative value
gives the 4px-per-step bracketed pixel literal, a positive value its decimal
string. -/
def normalizeNum (q : ℚ) : String :=
  if q = 0 then "0"
  else if q < 0 then "[-" ++ jsNumToString |q * 4| ++ "px]"
  else jsNumToString q

/-- The rem-lookup step of `normalizeSpacing`: `normalizeToRem` then
`remToScaleMap.get` (the code falls through both when `normalizeToRem` gives
`null` and when the map lookup misses). -/
def remScaleLookup (cleanValue : String) : Option String :=
  (normalizeToRem cleanValue).bind fun rv => List.lookup rv remToScaleMap

/-- `pxToScaleMap.get` on a possibly-`NaN` key (a `Map` holds no `NaN` key
here, so a `NaN` lookup misses). -/
def pxScaleLookup (k : Option ℚ) : Option String :=
  k.bind fun q => List.lookup q pxToScaleMap

/-- The `px`-ending branch of `normalizeSpacing`, as a function of the parsed
pixel number `px = Number.parseInt(cleanValue)`: look up `Math.abs(px)` in
`pxToScaleMap`; a negative length renders the bracketed negative-pixel literal
whether or not the lookup hits; a miss on a nonnegative length renders the
bracketed pixel literal. -/
def pxBranchAux (px : Option ℚ) : String :=
  match pxScaleLookup (jsAbsOpt px) with
  | some scaleValue =>
      if jsIsNeg px then "[-" ++ jsNumToStringOpt (jsAbsOpt px) ++ "px]" else scaleValue
  | none =>
      if jsIsNeg px then "[-" ++ jsNumToStringOpt (jsAbsOpt px) ++ "px]"
      else "[" ++ jsNumToStringOpt px ++ "px]"

/-- After the rem lookup missed: the `px`-ending branch, or the final
bracketed-literal fallback. -/
def pxBranch (cleanValue : String) : String :=
  if strEndsWith cleanValue "px" then pxBranchAux (jsParseInt cleanValue)
  else "[" ++ cleanValue ++ "]"

/-- `normalizeSpacing`'s string tail on the whitespace-cleaned value: the zero
forms, the rem lookup, then `pxBranch`. -/
def normalizeClean (cleanValue : String) : String :=
  if cleanValue = "0" ∨ cleanValue = "0px" ∨ cleanValue = "0rem" then "0"
  else
    match remScaleLookup cleanValue with
    | some scaleValue => scaleValue
    | none => pxBranch cleanValue

/-- The string tail of `normalizeSpacing` (everything after the `null`/`auto`/
negative-string/number branches): whitespace cleanup, then `normalizeClean`. -/
def normalizeStrTail (s : String) : String :=
  normalizeClean (removeSpaces s)

/-- The string branch of `normalizeSpacing`: the `"auto"` keyword, then the
negative-numeric-string recursion (`Number.parseFloat` on a string beginning
with `-`; on success the parsed number takes the numeric branch), then the
string tail. -/
def normalizeStr (s : String) : String :=
  if s = "auto" then "auto"
  else if strStartsWith s "-" then
    match jsParseFloat s with
    | some q => normalizeNum q
    | none => normalizeStrTail s
  else normalizeStrTail s

/-- A JavaScript scalar spacing value: a number or a string. -/
inductive JSPrim where
  | num : ℚ → JSPrim
  | str : String → JSPrim
deriving DecidableEq

/-- `normalizeSpacing` of `theme-scales.ts`.  `none` models `null`; the
branches of the source apply to disjoint runtime types, so they are grouped
here by the type of the value. -/
def normalizeSpacing : Option JSPrim → String
  | none => ""
  | some (.num q) => normalizeNum q
  | some (.str s) => normalizeStr s

/-! ## The Class Synthesizer (`spacing.ts`) -/

/-- `propertyPrefixMap` of `spacing.ts`, in source order: spacing property →
class-name stem. -/
def propertyPrefixMap : List (String × String) :=
  [("margin", "m"), ("marginTop", "mt"), ("marginRight", "mr"),
   ("marginBottom", "mb"), ("marginLeft", "ml"), ("marginX", "mx"),
   ("marginY", "my"), ("marginInline", "mx"), ("marginInlineStart", "ms"),
   ("marginInlineEnd", "me"), ("marginBlock", "my"), ("marginBlockStart", "mt"),
   ("marginBlockEnd", "mb"),
   ("m", "m"), ("mt", "mt"), ("mr", "mr"), ("mb", "mb"), ("ml", "ml"),
   ("mx", "mx"), ("my", "my"), ("ms", "ms"), ("me", "me"),
   ("padding", "p"), ("paddingTop", "pt"), ("paddingRight", "pr"),
   ("paddingBottom", "pb"), ("paddingLeft", "pl"), ("paddingX", "px"),
   ("paddingY", "py"), ("paddingInline", "px"), ("paddingInlineStart", "ps"),
   ("paddingInlineEnd", "pe"), ("paddingBlock", "py"), ("paddingBlockStart", "pt"),
   ("paddingBlockEnd", "pb"),
   ("p", "p"), ("pt", "pt"), ("pr", "pr"), ("pb", "pb"), ("pl", "pl"),
   ("px", "px"), ("py", "py"), ("ps", "ps"), ("pe", "pe"),
   ("gap", "gap"), ("rowGap", "gap-y"), ("columnGap", "gap-x"),
   ("space", "space")]

/-- The breakpoint ladder of `convertSpacing`. -/
def breakpoints : List String :=
  ["", "sm", "md", "lg", "xl", "2xl"]

/-- `breakpoints[i]` with JavaScript's out-of-range semantics: an index past the
end reads `undefined`, which the template literal interpolates as the text
`"undefined"`. -/
def ladderAt (i : ℕ) : String :=
  (breakpoints.get? i).getD "undefined"

/-- The breakpoint tag of the element at cursor position `i`: empty at `0`,
otherwise `breakpoints[i]` followed by `:`. -/
def bpTag (i : ℕ) : String :=
  if i = 0 then "" else ladderAt i ++ ":"

/-- `propertyPrefixMap[property]` with JavaScript's missing-key semantics: an
unknown property reads `undefined`, which the template literals of
`convertSpacing` interpolate as the text `"undefined"`. -/
def resolvedClassPfx (property : String) : String :=
  (List.lookup property propertyPrefixMap).getD "undefined"

/-- A `SpacingValue`: a scalar, a responsive array (whose entries may be
`null`), or a responsive object iterated in declaration order. -/
inductive SpacingValue where
  | scalar : JSPrim → SpacingValue
  | arr : List (Option JSPrim) → SpacingValue
  | obj : List (String × JSPrim) → SpacingValue

/-- The array branch of `convertSpacing`: `i` is the `validIndex` cursor, which
starts at `0` and advances only past non-`null` elements (even ones whose
normalization is empty, which are dropped after the cursor advances); `null`
elements are skipped without advancing it. -/
def arrayTokensAux (pfx : String) : ℕ → List (Option JSPrim) → List String
  | _, [] => []
  | i, none :: rest => arrayTokensAux pfx i rest
  | i, some v :: rest =>
      if normalizeSpacing (some v) = "" then arrayTokensAux pfx (i + 1) rest
      else (bpTag i ++ pfx ++ "-" ++ normalizeSpacing (some v)) :: arrayTokensAux pfx (i + 1) rest

/-- The object branch of `convertSpacing`: the key `"base"` carries no tag, any
other key is used verbatim; entries normalizing to the empty string are
dropped. -/
def objTokens (pfx : String) (l : List (String × JSPrim)) : List String :=
  l.filterMap fun e =>
    if normalizeSpacing (some e.2) = "" then none
    else some ((if e.1 = "base" then "" else e.1 ++ ":") ++ pfx ++ "-" ++ normalizeSpacing (some e.2))

/-- `convertSpacing` of `spacing.ts`. -/
def convertSpacing (property : String) (value : SpacingValue) : String :=
  match value with
  | .arr l => joinSep " " (arrayTokensAux (resolvedClassPfx property) 0 l)
  | .obj l => joinSep " " (objTokens (resolvedClassPfx property) l)
  | .scalar v =>
      if normalizeSpacing (some v) = "" then ""
      else resolvedClassPfx property ++ "-" ++ normalizeSpacing (some v)

/-- The token list that `convertSpacing` joins with single spaces (the scalar
branch is the empty or one-token list); the bridge equality
`convertSpacing p v = joinSep " " (convertTokens p v)` is proved in the C7
theorem. -/
def convertTokens (property : String) (value : SpacingValue) : List String :=
  match value with
  | .arr l => arrayTokensAux (resolvedClassPfx property) 0 l
  | .obj l => objTokens (resolvedClassPfx property) l
  | .scalar v =>
      if normalizeSpacing (some v) = "" then []
      else [resolvedClassPfx property ++ "-" ++ normalizeSpacing (some v)]

/-- The number of non-`null` entries of a responsive array — the total advance
of the `validIndex` cursor across it. -/
def countSome : List (Option JSPrim) → ℕ
  | [] => 0
  | none :: r => countSome r
  | some _ :: r => 1 + countSome r

/-! ## Spec-side definitions

These do not model code; they render the spec's own words, to be compared with
the embedded code. -/

/-- Modelled from the spec: the pixel equivalent of a Scale Table length used by
the round-trip property — rem magnitude × 16, with `"0"` → `"0px"` and the
hairline length `"1px"` kept as `"1px"`. -/
def pxEquivalent (length : String) : String :=
  if length = "0" then "0px"
  else if length = "1px" then "1px"
  else jsNumToStringOpt ((jsParseFloat length).map fun q => q * 16) ++ "px"

/-- Split a string at single spaces (how a class string is read back as
space-separated tokens). -/
def splitSpacesAux : List Char → List Char → List String
  | acc, [] => [⟨acc.reverse⟩]
  | acc, ' ' :: rest => ⟨acc.reverse⟩ :: splitSpacesAux [] rest
  | acc, c :: rest => splitSpacesAux (c :: acc) rest

/-- Split a string at single spaces. -/
def splitSpaces (s : String) : List String :=
  splitSpacesAux [] s.data

/-- Modelled from the spec: the §6 output contract for one class token — it is
`{stem}-{token}` where the token is a bare scale step, `auto`, `0`, or a
bracketed literal with no internal whitespace. -/
def specTokenOk (pfx tok : String) : Bool :=
  strStartsWith tok (pfx ++ "-") &&
  (let payload : String := ⟨tok.data.drop (pfx.data.length + 1)⟩
   payload = "auto" || payload = "0" || spacingScale.any (fun p => p.1 = payload) ||
   (strStartsWith payload "[" && strEndsWith payload "]" &&
    payload.data.all fun c => !jsIsSpace c))

/-- Modelled from the spec: the §6 output contract for a whole synthesized
string — empty, or space-separated tokens each satisfying `specTokenOk`. -/
def specOutputOk (pfx out : String) : Bool :=
  out = "" || (splitSpaces out).all (specTokenOk pfx)

/-- The shape every token payload the normalizer emits actually has: `auto`,
`0`, the hairline step `px`, an unbracketed decimal numeral (digits, possibly
with a dot — not necessarily a scale step, since positive numbers are echoed
without any table lookup), or a bracketed literal (which, unlike the spec's
contract, may contain internal whitespace). -/
def tokenPayloadForm (t : String) : Bool :=
  t = "auto" || t = "0" || t = "px" ||
  (!t.data.isEmpty && t.data.all fun c => c.isDigit || c == '.') ||
  (strStartsWith t "[" && strEndsWith t "]")

/-! ## General lemmas about the embedding -/

/-- A failed mantissa parse means there was no leading digit. -/
theorem parseMantissaAux_none (ds r1 : List Char) (h : parseMantissaAux ds r1 = none) :
    ds = [] := by
  cases ds with
  | nil => rfl
  | cons a as =>
      exfalso
      unfold parseMantissaAux at h
      revert h
      split
      · intro hh; simp at hh
      · intro hh; simp at hh

/-- With no leading decimal digit after sign and whitespace, `parseInt` fails. -/
theorem jsParseIntAux_none (neg : Bool) (l2 : List Char)
    (hds : (decDigits l2).1 = []) : jsParseIntAux neg l2 = none := by
  cases l2 with
  | nil => rfl
  | cons c cs =>
      have hc : c.isDigit = false := by
        unfold decDigits at hds
        rw [List.takeWhile_cons] at hds
        by_cases h : c.isDigit
        · rw [if_pos h] at hds; simp at hds
        · simpa using h
      unfold jsParseIntAux
      split
      · rename_i x rest heq
        exfalso
        have : c = '0' := by injection heq
        rw [this] at hc
        exact absurd hc (by decide)
      · rw [hds]
        rfl

/-- A string on which `Number.parseFloat` gives `NaN` also gives `NaN` under
`Number.parseInt` (both skip the same whitespace and sign and then need a
leading digit; a `0x` head starts with the digit `0`). -/
theorem jsParseInt_none_of_float_none (s : String) (h : jsParseFloat s = none) :
    jsParseInt s = none := by
  unfold jsParseFloat jsParseFloatList jsParseFloatAux at h
  have hm : parseMantissa (splitSign (s.data.dropWhile jsIsSpace)).2 = none := by
    cases hp : parseMantissa (splitSign (s.data.dropWhile jsIsSpace)).2 with
    | none => rfl
    | some m => rw [hp] at h; simp at h
  have hds := parseMantissaAux_none _ _ hm
  unfold jsParseInt jsParseIntList
  exact jsParseIntAux_none _ _ hds

/-- `removeSpaces` leaves a string without `calc`/`clamp` unchanged. -/
theorem removeSpaces_eq_self (s : String) (hcalc : strContains s "calc" = false)
    (hclamp : strContains s "clamp" = false) : removeSpaces s = s := by
  unfold removeSpaces
  rw [hcalc, hclamp]
  rfl

/-- The `validIndex` cursor across a concatenation: the tokens of the second
part start at the count of non-`null` entries of the first. -/
theorem arrayTokensAux_append (pfx : String) (l1 l2 : List (Option JSPrim)) (i : ℕ) :
    arrayTokensAux pfx i (l1 ++ l2) =
      arrayTokensAux pfx i l1 ++ arrayTokensAux pfx (i + countSome l1) l2 := by
  induction l1 generalizing i with
  | nil => simp [arrayTokensAux, countSome]
  | cons hd tl ih =>
      cases hd with
      | none => simpa [arrayTokensAux, countSome] using ih i
      | some v =>
          simp only [List.cons_append, arrayTokensAux, countSome, List.append_eq]
          rw [ih (i + 1)]
          have : i + 1 + countSome tl = i + (1 + countSome tl) := by omega
          rw [this]
          split <;> simp

/-- Past the end of the 6-tier ladder the breakpoint tag is the interpolated
`undefined:`. -/
theorem bpTag_undefined (i : ℕ) (h : 6 ≤ i) : bpTag i = "undefined:" := by
  have h0 : i ≠ 0 := by omega
  have hget : breakpoints.get? i = none := by
    rw [List.get?_eq_none]
    simpa [breakpoints] using h
  unfold bpTag ladderAt
  rw [if_neg h0, hget]
  rfl

/-- A digit value renders as a digit character. -/
theorem digitChar_isDigit (n : ℕ) (h : n < 10) : (digitChar n).isDigit = true := by
  interval_cases n <;> decide

/-- Every character of a rendered natural number is a digit. -/
theorem natDigitsAux_all_digits (fuel : ℕ) :
    ∀ (n : ℕ), ∀ c ∈ natDigitsAux fuel n, c.isDigit = true := by
  induction fuel with
  | zero => simp [natDigitsAux]
  | succ f ih =>
      intro n c hc
      unfold natDigitsAux at hc
      split at hc
      · rename_i h
        simp at hc
        subst hc
        exact digitChar_isDigit n h
      · rw [List.mem_append] at hc
        rcases hc with hc | hc
        · exact ih _ c hc
        · simp at hc
          subst hc
          exact digitChar_isDigit _ (Nat.mod_lt _ (by omega))

/-- A rendered natural number is never empty (with nonzero fuel). -/
theorem natDigitsAux_ne_nil (fuel n : ℕ) (h : fuel ≠ 0) : natDigitsAux fuel n ≠ [] := by
  cases fuel with
  | zero => exact absurd rfl h
  | succ f =>
      unfold natDigitsAux
      split
      · simp
      · simp

/-- On a nonnegative rational, `ratIP` is the floor. -/
theorem ratIP_intCast (x : ℚ) (hx : 0 ≤ x) : ((ratIP x : ℕ) : ℤ) = ⌊x⌋ := by
  have hnum : (0:ℤ) ≤ x.num := Rat.num_nonneg.mpr hx
  have h1 : ((ratIP x : ℕ) : ℤ) = (x.num.toNat : ℤ) / (x.den : ℤ) := Int.ofNat_ediv _ _
  rw [h1, Int.toNat_of_nonneg hnum, Rat.floor_def]

/-- The fractional remainder after `ratIP` is nonnegative. -/
theorem ratIP_frac_nonneg (x : ℚ) (hx : 0 ≤ x) : 0 ≤ x - (ratIP x : ℚ) := by
  have h : ((ratIP x : ℕ) : ℚ) = ((⌊x⌋ : ℤ) : ℚ) := by
    exact_mod_cast congrArg (fun z : ℤ => (z : ℚ)) (ratIP_intCast x hx)
  rw [h]
  have := Int.floor_le x
  linarith

/-- The fractional remainder after `ratIP` is below one. -/
theorem ratIP_frac_lt_one (x : ℚ) (hx : 0 ≤ x) : x - (ratIP x : ℚ) < 1 := by
  have h : ((ratIP x : ℕ) : ℚ) = ((⌊x⌋ : ℤ) : ℚ) := by
    exact_mod_cast congrArg (fun z : ℤ => (z : ℚ)) (ratIP_intCast x hx)
  rw [h, Int.self_sub_floor]
  exact Int.fract_lt_one x

/-- The integer part of a rational below ten is a digit value. -/
theorem ratIP_lt_ten (x : ℚ) (hx : 0 ≤ x) (h10 : x < 10) : ratIP x < 10 := by
  have h := ratIP_intCast x hx
  have hf : ⌊x⌋ < (10 : ℤ) := Int.floor_lt.mpr (by exact_mod_cast h10)
  omega

/-- Every character of a rendered fractional part is a digit. -/
theorem fracDigitsAux_all_digits (fuel : ℕ) :
    ∀ q : ℚ, 0 ≤ q → q < 1 → ∀ c ∈ fracDigitsAux fuel q, c.isDigit = true := by
  induction fuel with
  | zero => simp [fracDigitsAux]
  | succ f ih =>
      intro q h0 h1 c hc
      unfold fracDigitsAux at hc
      split at hc
      · simp at hc
      · have hq0 : 0 ≤ q * 10 := by positivity
        have hq10 : q * 10 < 10 := by nlinarith
        rcases List.mem_cons.mp hc with hc | hc
        · subst hc
          exact digitChar_isDigit _ (ratIP_lt_ten _ hq0 hq10)
        · exact ih _ (ratIP_frac_nonneg _ hq0) (ratIP_frac_lt_one _ hq0) c hc

/-- A prefix of a list is a prefix of any extension of it. -/
theorem listIsPfxOf_extend (p : List Char) : ∀ (l r : List Char),
    listIsPfxOf p l = true → listIsPfxOf p (l ++ r) = true := by
  induction p with
  | nil => intro l r _; rfl
  | cons a as ih =>
      intro l r h
      cases l with
      | nil => simp [listIsPfxOf] at h
      | cons b bs =>
          rw [List.cons_append]
          unfold listIsPfxOf at h ⊢
          rw [Bool.and_eq_true] at h ⊢
          exact ⟨h.1, ih bs r h.2⟩

/-- A head prefix survives appending on the right. -/
theorem strStartsWith_append (a b p : String) (h : strStartsWith a p = true) :
    strStartsWith (a ++ b) p = true := by
  unfold strStartsWith at h ⊢
  rw [String.data_append]
  exact listIsPfxOf_extend _ _ _ h

/-- A tail suffix survives appending on the left. -/
theorem strEndsWith_append (a b p : String) (h : strEndsWith b p = true) :
    strEndsWith (a ++ b) p = true := by
  unfold strEndsWith at h ⊢
  rw [String.data_append, List.reverse_append]
  exact listIsPfxOf_extend _ _ _ h

/-- A string opening with `[` and closing with `]` is a well-shaped payload. -/
theorem tokenPayloadForm_of_brackets (t : String)
    (h1 : strStartsWith t "[" = true) (h2 : strEndsWith t "]" = true) :
    tokenPayloadForm t = true := by
  simp [tokenPayloadForm, h1, h2]

/-- A nonempty string of digits and dots is a well-shaped payload. -/
theorem tokenPayloadForm_of_digits (t : String) (hne : t.data ≠ [])
    (hall : ∀ c ∈ t.data, c.isDigit = true ∨ c = '.') : tokenPayloadForm t = true := by
  have hform : (!t.data.isEmpty && t.data.all fun c => c.isDigit || c == '.') = true := by
    rw [Bool.and_eq_true, List.all_eq_true]
    constructor
    · simpa using hne
    · intro c hc
      rcases hall c hc with h | h
      · simp [h]
      · simp [h]
  simp [tokenPayloadForm, hform]

/-- A rendered nonnegative rational is a decimal numeral payload. -/
theorem ratToStrNonneg_payload (q : ℚ) (hq : 0 ≤ q) :
    tokenPayloadForm (ratToStrNonneg q) = true := by
  unfold ratToStrNonneg
  split
  · apply tokenPayloadForm_of_digits
    · exact natDigitsAux_ne_nil _ _ (by omega)
    · intro c hc
      exact Or.inl (natDigitsAux_all_digits _ _ c hc)
  · apply tokenPayloadForm_of_digits
    · simp [String.data_append]
    · intro c hc
      rw [String.data_append, String.data_append] at hc
      rcases List.mem_append.mp hc with hc | hc
      · rcases List.mem_append.mp hc with hc | hc
        · exact Or.inl (natDigitsAux_all_digits _ _ c hc)
        · simp at hc
          exact Or.inr hc
      · exact Or.inl
          (fracDigitsAux_all_digits 40 _ (ratIP_frac_nonneg q hq) (ratIP_frac_lt_one q hq) c hc)

/-- The numeric branch of the normalizer always emits a well-shaped payload. -/
theorem normalizeNum_payload (q : ℚ) : tokenPayloadForm (normalizeNum q) = true := by
  unfold normalizeNum
  split
  · decide
  · split
    · apply tokenPayloadForm_of_brackets
      · exact strStartsWith_append _ _ _ (strStartsWith_append _ _ _ (by decide))
      · exact strEndsWith_append _ _ _ (by decide)
    · rename_i h0 hneg
      unfold jsNumToString
      rw [if_neg hneg]
      exact ratToStrNonneg_payload q (not_lt.mp hneg)

/-- A successful association-list lookup returns one of the stored values. -/
theorem lookup_mem_values {α β : Type} [BEq α] (k : α) (m : List (α × β)) (v : β)
    (h : List.lookup k m = some v) : v ∈ m.map Prod.snd := by
  induction m with
  | nil => simp [List.lookup] at h
  | cons hd tl ih =>
      obtain ⟨a, b⟩ := hd
      simp only [List.lookup] at h
      split at h
      · simp only [Option.some.injEq] at h
        subst h
        simp
      · simp [ih h]

/-- Every value of `remToScaleMap` is a well-shaped payload. -/
theorem remMap_values_payload : ∀ v ∈ remToScaleMap.map Prod.snd, tokenPayloadForm v = true := by
  decide

/-- Every value of `pxToScaleMap` is a well-shaped payload. -/
theorem pxMap_values_payload : ∀ v ∈ pxToScaleMap.map Prod.snd, tokenPayloadForm v = true := by
  with_unfolding_all decide

/-- The px branch always emits a well-shaped payload. -/
theorem pxBranchAux_payload (k : Option ℚ) : tokenPayloadForm (pxBranchAux k) = true := by
  unfold pxBranchAux
  split
  · rename_i sv hsv
    split
    · apply tokenPayloadForm_of_brackets
      · exact strStartsWith_append _ _ _ (strStartsWith_append _ _ _ (by decide))
      · exact strEndsWith_append _ _ _ (by decide)
    · have hmem : sv ∈ pxToScaleMap.map Prod.snd := by
        unfold pxScaleLookup at hsv
        cases hk : jsAbsOpt k with
        | none => rw [hk] at hsv; exact Option.noConfusion hsv
        | some q =>
            rw [hk] at hsv
            simp only [Option.some_bind] at hsv
            exact lookup_mem_values q pxToScaleMap sv hsv
      exact pxMap_values_payload sv hmem
  · split
    · apply tokenPayloadForm_of_brackets
      · exact strStartsWith_append _ _ _ (strStartsWith_append _ _ _ (by decide))
      · exact strEndsWith_append _ _ _ (by decide)
    · apply tokenPayloadForm_of_brackets
      · exact strStartsWith_append _ _ _ (strStartsWith_append _ _ _ (by decide))
      · exact strEndsWith_append _ _ _ (by decide)

/-- The string tail of the normalizer always emits a well-shaped payload. -/
theorem normalizeClean_payload (c : String) : tokenPayloadForm (normalizeClean c) = true := by
  unfold normalizeClean
  split
  · decide
  · split
    · rename_i sv hsv
      have hmem : sv ∈ remToScaleMap.map Prod.snd := by
        unfold remScaleLookup at hsv
        cases hk : normalizeToRem c with
        | none => rw [hk] at hsv; exact Option.noConfusion hsv
        | some rv =>
            rw [hk] at hsv
            simp only [Option.some_bind] at hsv
            exact lookup_mem_values rv remToScaleMap sv hsv
      exact remMap_values_payload sv hmem
    · unfold pxBranch
      split
      · exact pxBranchAux_payload _
      · apply tokenPayloadForm_of_brackets
        · exact strStartsWith_append _ _ _ (strStartsWith_append _ _ _ (by decide))
        · exact strEndsWith_append _ _ _ (by decide)

/-- The normalizer always emits a well-shaped payload on a non-null scalar. -/
theorem normalizeSpacing_payload (v : JSPrim) :
    tokenPayloadForm (normalizeSpacing (some v)) = true := by
  cases v with
  | num q => exact normalizeNum_payload q
  | str s =>
      show tokenPayloadForm (normalizeStr s) = true
      unfold normalizeStr
      split
      · decide
      · split
        · split
          · rename_i q _
            exact normalizeNum_payload q
          · exact normalizeClean_payload (removeSpaces s)
        · exact normalizeClean_payload (removeSpaces s)

/-- Every array-branch token is a tagged stem with a well-shaped payload. -/
theorem arrayTokensAux_form (pfx : String) (l : List (Option JSPrim)) :
    ∀ (i : ℕ) (t : String), t ∈ arrayTokensAux pfx i l →
      ∃ tag payload, t = tag ++ pfx ++ "-" ++ payload ∧ tokenPayloadForm payload = true := by
  induction l with
  | nil => intro i t ht; simp [arrayTokensAux] at ht
  | cons hd tl ih =>
      intro i t ht
      cases hd with
      | none => exact ih i t ht
      | some v =>
          simp only [arrayTokensAux] at ht
          split at ht
          · exact ih _ t ht
          · rcases List.mem_cons.mp ht with h | h
            · exact ⟨bpTag i, normalizeSpacing (some v), h, normalizeSpacing_payload v⟩
            · exact ih _ t h

/-- Every object-branch token is a tagged stem with a well-shaped payload. -/
theorem objTokens_form (pfx : String) (l : List (String × JSPrim)) (t : String)
    (ht : t ∈ objTokens pfx l) :
    ∃ tag payload, t = tag ++ pfx ++ "-" ++ payload ∧ tokenPayloadForm payload = true := by
  unfold objTokens at ht
  rcases List.mem_filterMap.mp ht with ⟨e, _, hfe⟩
  revert hfe
  split
  · intro h; exact Option.noConfusion h
  · intro h
    exact ⟨(if e.1 = "base" then "" else e.1 ++ ":"), normalizeSpacing (some e.2),
      (Option.some.inj h).symm, normalizeSpacing_payload e.2⟩

/-! ## The claims -/

/-- C1: the spec's worked example claims
`synthesize("padding", ["8px", null, "0.5rem"]) == "p-2 md:p-2"`, and the
repository's own test suite asserts the same string; the code, whose cursor
advances only past non-`null` entries, actually returns `"p-2 sm:p-2"` —
evaluated here at the claim's exact input. -/
theorem c1_cursor_example_eval :
    convertSpacing "padding" (.arr [some (.str "8px"), none, some (.str "0.5rem")]) =
      "p-2 sm:p-2" := by
  with_unfolding_all decide

/-- C2: the breakpoint cursor starts at 0 and advances only on non-`null`
elements: for every `[x, null, y]` with `x`, `y` normalizing to non-empty
tokens, the token for `y` carries the tier-1 tag `sm:` (not the tier-2 `md:`),
whatever the property. -/
theorem c2_null_skip_cursor (p : String) (x y : JSPrim)
    (hx : normalizeSpacing (some x) ≠ "") (hy : normalizeSpacing (some y) ≠ "") :
    convertSpacing p (.arr [some x, none, some y]) =
      resolvedClassPfx p ++ "-" ++ normalizeSpacing (some x) ++ " " ++
        ("sm:" ++ resolvedClassPfx p ++ "-" ++ normalizeSpacing (some y)) := by
  simp only [convertSpacing, arrayTokensAux, if_neg hx, if_neg hy, joinSep]
  rfl

/-- C2, witness: the theorem applied at `("padding", [2, null, 6])`, the spec's
own example of the rule. -/
theorem c2_null_skip_cursor_witness :
    convertSpacing "padding" (.arr [some (.num 2), none, some (.num 6)]) =
      resolvedClassPfx "padding" ++ "-" ++ normalizeSpacing (some (.num 2)) ++ " " ++
        ("sm:" ++ resolvedClassPfx "padding" ++ "-" ++ normalizeSpacing (some (.num 6))) :=
  c2_null_skip_cursor "padding" (.num 2) (.num 6)
    (by with_unfolding_all decide) (by with_unfolding_all decide)

/-- C3: the claim (and the repository's own tests) expect `"-4px"` to keep the
string path, giving `"[-4px]"`, and `"-1rem"` giving `"[-1rem]"`; but
`Number.parseFloat` parses the numeric head of `"-4px"`, so the code recurses
with the number and rescales by the 4px rule: `"-4px"` gives `"[-16px]"` and
`"-1rem"` gives `"[-4px]"`. -/
theorem c3_negative_string_eval :
    normalizeSpacing (some (.str "-4px")) = "[-16px]" ∧
    normalizeSpacing (some (.str "-1rem")) = "[-4px]" := by
  with_unfolding_all decide

/-- C4, counterexample: an identifier missing from `propertyPrefixMap` is not
rejected at runtime — the lookup yields `undefined` and `convertSpacing`
returns a normally-shaped class string with the literal stem `undefined`. -/
theorem c4_unknown_property_counterexample :
    List.lookup "foo" propertyPrefixMap = none ∧
    convertSpacing "foo" (.scalar (.num 4)) = "undefined-4" := by
  with_unfolding_all decide

/-- C4, amended: for every property identifier missing from
`propertyPrefixMap` and every scalar with non-empty normalization, the output
is `undefined-{token}`; only the TypeScript type of `convertSpacing` excludes
such identifiers, statically. -/
theorem c4_unknown_property_amended (property : String)
    (h : List.lookup property propertyPrefixMap = none)
    (v : JSPrim) (hv : normalizeSpacing (some v) ≠ "") :
    convertSpacing property (.scalar v) = "undefined-" ++ normalizeSpacing (some v) := by
  simp only [convertSpacing, resolvedClassPfx, h, Option.getD, if_neg hv]
  rfl

/-- C4, witness: the amended theorem applied at `("foo", 4)`. -/
theorem c4_unknown_property_witness :
    convertSpacing "foo" (.scalar (.num 4)) = "undefined-" ++ normalizeSpacing (some (.num 4)) :=
  c4_unknown_property_amended "foo" (by decide) (.num 4) (by with_unfolding_all decide)

/-- C5: round-trip over the whole Scale Table — for every entry
`(step, length)`, normalizing the length string returns the step, and
normalizing its pixel-equivalent string (rem magnitude × 16, `"0"` → `"0px"`,
`"1px"` kept) also returns the step. -/
theorem c5_scale_roundtrip :
    ∀ p ∈ spacingScale,
      normalizeSpacing (some (.str p.2)) = p.1 ∧
      normalizeSpacing (some (.str (pxEquivalent p.2))) = p.1 := by
  with_unfolding_all decide

/-- C5, witness: the round-trip theorem applied at the entry `("4", "1rem")`. -/
theorem c5_scale_roundtrip_witness :
    normalizeSpacing (some (.str "1rem")) = "4" ∧
    normalizeSpacing (some (.str (pxEquivalent "1rem"))) = "4" :=
  c5_scale_roundtrip ("4", "1rem") (by decide)

/-- C6, counterexample: `normalize` is not idempotent on scale-step tokens —
`normalize(4) = "4"`, but feeding `"4"` back re-brackets it to `"[4]"`. -/
theorem c6_idempotence_counterexample :
    normalizeSpacing (some (.str (normalizeSpacing (some (.num 4))))) ≠
      normalizeSpacing (some (.num 4)) := by
  with_unfolding_all decide

/-- C6, amended: re-normalization is stable only for `"0"` and `"auto"`; every
numeric scale step `s` re-normalizes to the bracketed literal `"[s]"`, and the
hairline step `"px"` re-normalizes to `"[NaNpx]"`. -/
theorem c6_idempotence_amended :
    normalizeSpacing (some (.str "0")) = "0" ∧
    normalizeSpacing (some (.str "auto")) = "auto" ∧
    (∀ p ∈ spacingScale, p.1 ≠ "0" → p.1 ≠ "px" →
      normalizeSpacing (some (.str p.1)) = "[" ++ p.1 ++ "]") ∧
    normalizeSpacing (some (.str "px")) = "[NaNpx]" := by
  with_unfolding_all decide

/-- C6, witness: the amended theorem's step clause applied at the step `"4"`. -/
theorem c6_idempotence_witness :
    normalizeSpacing (some (.str "4")) = "[" ++ "4" ++ "]" :=
  c6_idempotence_amended.2.2.1 ("4", "1rem") (by decide) (by decide) (by decide)

/-- C7, counterexample: the §6 output contract fails — `"10 vh"` contains no
`calc`/`clamp`, keeps its space, and the output `"p-[10 vh]"` does not split
into well-formed `{stem}-{token}` pieces. -/
theorem c7_output_form_counterexample :
    specOutputOk "p" (convertSpacing "padding" (.scalar (.str "10 vh"))) = false := by
  with_unfolding_all decide

/-- C7, amended: for every property and every `SpacingValue`, the output is the
space-join of the emitted token list, and every emitted token has the form
`{tag}{stem}-{payload}` (tag the responsive tag, possibly empty) where the
payload is `auto`, `0`, `px`, an unbracketed decimal numeral — not necessarily
a scale step, since positive numbers are echoed without table lookup — or a
bracketed literal; bracketed literals are not whitespace-free in general (the
counterexample's `p-[10 vh]`), so the space-separated reading of the output
can split a token apart. -/
theorem c7_output_form_amended (property : String) (value : SpacingValue) :
    convertSpacing property value = joinSep " " (convertTokens property value) ∧
    ∀ t ∈ convertTokens property value,
      ∃ tag payload,
        t = tag ++ resolvedClassPfx property ++ "-" ++ payload ∧
        tokenPayloadForm payload = true := by
  constructor
  · cases value with
    | scalar v =>
        simp only [convertSpacing, convertTokens]
        split
        · rfl
        · rfl
    | arr l => rfl
    | obj l => rfl
  · cases value with
    | scalar v =>
        intro t ht
        simp only [convertTokens] at ht
        split at ht
        · simp at ht
        · rw [List.mem_singleton] at ht
          exact ⟨"", normalizeSpacing (some v), ht, normalizeSpacing_payload v⟩
    | arr l => exact fun t ht => arrayTokensAux_form _ l 0 t ht
    | obj l => exact fun t ht => objTokens_form _ l t ht

/-- C7, witness: the amended theorem applied to the counterexample's own input
`("padding", "10 vh")` and its single emitted token `"p-[10 vh]"`. -/
theorem c7_output_form_witness :
    ∃ tag payload,
      "p-[10 vh]" = tag ++ resolvedClassPfx "padding" ++ "-" ++ payload ∧
      tokenPayloadForm payload = true :=
  (c7_output_form_amended "padding" (.scalar (.str "10 vh"))).2 "p-[10 vh]"
    (by with_unfolding_all decide)

/-- C8: `marginInlineStart` and `ms` resolve to the same class stem `ms`, so
`convertSpacing` coincides on them for every `SpacingValue` — scalar, array,
and object shapes alike. -/
theorem c8_logical_shorthand_equiv (X : SpacingValue) :
    convertSpacing "marginInlineStart" X = convertSpacing "ms" X := by
  have h : resolvedClassPfx "marginInlineStart" = resolvedClassPfx "ms" := by decide
  cases X <;> simp [convertSpacing, h]

/-- C9, counterexample: the claim quantifies over every string ending in `px`
whose head does not parse as a number, but `"- 4calcpx"` (parseFloat `NaN`)
contains `calc`, so whitespace removal turns it into `"-4calcpx"` whose
`parseInt` is `-4` — the result is `"[-4px]"`, not `"[NaNpx]"`. -/
theorem c9_nan_px_counterexample :
    strEndsWith "- 4calcpx" "px" = true ∧
    jsParseFloat "- 4calcpx" = none ∧
    normalizeSpacing (some (.str "- 4calcpx")) = "[-4px]" := by
  with_unfolding_all decide

/-- C9, amended: for every string ending in `px` whose leading characters do
not parse as a number and which contains neither `calc` nor `clamp` (so the
whitespace cleanup leaves it unchanged), the `NaN` flows through the rem
rendering, both lookups and the final fallback, giving `"[NaNpx]"`. -/
theorem c9_nan_px_amended (s : String)
    (hend : strEndsWith s "px" = true)
    (hpf : jsParseFloat s = none)
    (hcalc : strContains s "calc" = false)
    (hclamp : strContains s "clamp" = false) :
    normalizeSpacing (some (.str s)) = "[NaNpx]" := by
  have hauto : s ≠ "auto" := by rintro rfl; exact absurd hend (by decide)
  have hclean := removeSpaces_eq_self s hcalc hclamp
  have h0 : s ≠ "0" := by rintro rfl; exact absurd hend (by decide)
  have h0px : s ≠ "0px" := by rintro rfl; exact absurd hpf (by with_unfolding_all decide)
  have h0rem : s ≠ "0rem" := by rintro rfl; exact absurd hend (by decide)
  have hpi : jsParseInt s = none := jsParseInt_none_of_float_none s hpf
  have hntr : normalizeToRem s = some "NaNrem" := by
    unfold normalizeToRem
    rw [if_pos hend, hpf]
    with_unfolding_all decide
  have hrem : remScaleLookup s = none := by
    unfold remScaleLookup
    rw [hntr]
    with_unfolding_all decide
  have htail : normalizeStrTail s = "[NaNpx]" := by
    unfold normalizeStrTail
    rw [hclean]
    unfold normalizeClean
    rw [if_neg (by push_neg; exact ⟨h0, h0px, h0rem⟩)]
    rw [hrem]
    show pxBranch s = "[NaNpx]"
    unfold pxBranch
    rw [if_pos hend, hpi]
    with_unfolding_all decide
  show normalizeStr s = "[NaNpx]"
  unfold normalizeStr
  rw [if_neg hauto]
  by_cases hst : strStartsWith s "-" = true
  · rw [if_pos hst, hpf]
    exact htail
  · rw [if_neg hst]
    exact htail

/-- C9, witness: the amended theorem applied at the bare hairline token
`"px"`. -/
theorem c9_nan_px_witness :
    normalizeSpacing (some (.str "px")) = "[NaNpx]" :=
  c9_nan_px_amended "px" (by decide) (by with_unfolding_all decide) (by decide) (by decide)

/-- C10: the ladder is indexed with no bounds check — any non-`null` element
preceded by at least 6 non-`null` entries (so the cursor is past the 6-tier
ladder), whose normalization is non-empty, is emitted with the literal
interpolated tag `undefined:`, not dropped and not an error. -/
theorem c10_ladder_overflow (property : String) (pre suf : List (Option JSPrim)) (v : JSPrim)
    (h6 : 6 ≤ countSome pre) (hv : normalizeSpacing (some v) ≠ "") :
    convertSpacing property (.arr (pre ++ some v :: suf)) =
      joinSep " "
        (arrayTokensAux (resolvedClassPfx property) 0 pre ++
          ("undefined:" ++ resolvedClassPfx property ++ "-" ++ normalizeSpacing (some v)) ::
            arrayTokensAux (resolvedClassPfx property) (countSome pre + 1) suf) := by
  simp only [convertSpacing]
  rw [arrayTokensAux_append]
  simp only [arrayTokensAux, if_neg hv, Nat.zero_add]
  rw [bpTag_undefined _ h6]

/-- C10, witness: a 7-element array of non-`null` scalars; the 7th token is
emitted with the `undefined:` tag. -/
theorem c10_ladder_overflow_witness :
    convertSpacing "padding"
        (.arr [some (.num 1), some (.num 1), some (.num 1), some (.num 1), some (.num 1),
               some (.num 1), some (.num 7)]) =
      "p-1 sm:p-1 md:p-1 lg:p-1 xl:p-1 2xl:p-1 undefined:p-7" := by
  have h := c10_ladder_overflow "padding"
      [some (.num 1), some (.num 1), some (.num 1), some (.num 1), some (.num 1), some (.num 1)]
      [] (.num 7) (by with_unfolding_all decide) (by with_unfolding_all decide)
  exact h.trans (by with_unfolding_all decide)

end ChakraToTailwind
